import Mathlib

set_option autoImplicit false

/-!
Shallow embedding of the PEGGPT workflow-orchestration core and proofs that
its natural-language specification matches the code.

The embedding covers:
* `src/loop_guard.py` — `detect_loop`
* `src/bandit_selector.py` — `BanditSelector.choose` (the arm-statistics
  update phase and the sampling/pick phase)
* `src/orchestrator.py` — `Orchestrator.get_node_details`,
  `Orchestrator.get_next_node`, `Orchestrator._execute_node`, and the main
  loop of `Orchestrator.execute_graph`

Modelling conventions:
* Python floats become `ℚ` (all the arithmetic the code performs on scores
  and arm statistics is exact: comparisons, +, -, *, /).
* Python dict entries that may be absent become `Option` fields; `d.get(k, v)`
  becomes `Option.getD`.
* Code that can raise returns `Option` (`none` = an exception was raised).
* `random.betavariate` / `random.uniform` draws and the wall-clock timestamp
  are modelled by oracle parameters: every concrete execution of the Python
  code corresponds to some instantiation of the oracles, and all theorems
  quantify over them.
-/

/-- History entry: a Python dict appended by the orchestrator (and, for the
selector and loop detector, any caller-supplied dict).  Keys that may be
absent are `Option` fields.  The Python key `macro` is a Lean keyword, so the
field is named `macroName`; `from`/`to` on edges are renamed likewise. -/
structure HEntry where
  node : String
  result : String
  score : Option ℚ
  timestamp : ℕ
  macroName : Option String
  reward : Option ℚ
deriving Repr, DecidableEq

/-- Placeholder entry used for total indexing (`List.getD`); every access is
within bounds whenever the Python code would not raise. -/
def dummyEntry : HEntry := ⟨"", "", none, 0, none, none⟩

/-- Python list slice `l[-n:]`.  For `n ≥ 1` this is the last `min n (length l)`
elements; for `n = 0` Python reads it as `l[0:]`, the whole list. -/
def pySliceLast (n : ℕ) (l : List HEntry) : List HEntry :=
  if n = 0 then l else l.drop (l.length - n)

/-- Embedding of `loop_guard.detect_loop`.  Returns `none` exactly where the
Python code raises `IndexError` (`recent_builds[0]` on an empty list, which
can only happen for `N = 0`). -/
def detect_loop (history : List HEntry) (N : ℕ) (ε : ℚ) : Option Bool :=
  let build_actions := history.filter (fun h => h.node == "build" && h.macroName.isSome)
  if build_actions.length < N then some false
  else
    let recent_builds := pySliceLast N build_actions
    match recent_builds with
    | [] => none
    | first :: _ =>
      let last := first.macroName
      if recent_builds.all (fun a => a.macroName == last) then
        if (List.range (N - 1)).any (fun i =>
            ((recent_builds.getD (i + 1) dummyEntry).score.getD 0
              - (recent_builds.getD i dummyEntry).score.getD 0) > ε) then
          some false
        else
          some true
      else some false

/-- All entries of the list carry the same macro as its first entry. -/
def sameMacroRun : List HEntry → Bool
  | [] => true
  | a :: t => t.all (fun x => x.macroName == a.macroName)

/-- The loop-detector condition, written from the specification's words:
filter the history to `build` entries carrying a macro; at least `N` such
entries exist; the last `N` of them all share the same macro; and none of the
`N - 1` consecutive pairwise score deltas exceeds `ε`. -/
def detect_loop_spec (history : List HEntry) (N : ℕ) (ε : ℚ) : Bool :=
  let filtered := history.filter (fun h => h.node == "build" && h.macroName.isSome)
  let lastN := filtered.drop (filtered.length - N)
  decide (N ≤ filtered.length) &&
    sameMacroRun lastN &&
    (List.range (N - 1)).all (fun i =>
      decide ((lastN.getD (i + 1) dummyEntry).score.getD 0
        - (lastN.getD i dummyEntry).score.getD 0 ≤ ε))

/-- Per-macro bandit arm statistics (`bandit_selector.py` weight records). -/
structure ArmStats where
  successes : ℚ
  failures : ℚ
  plays : ℚ
  total_reward : ℚ
deriving Repr, DecidableEq

/-- The uniform prior used when a macro is first seen:
`{'successes': 1, 'failures': 1, 'plays': 0, 'total_reward': 0}`. -/
def priorArm : ArmStats := ⟨1, 1, 0, 0⟩

/-- The selector's weight store: a Python dict modelled as an insertion-ordered
association list. -/
abbrev Weights := List (String × ArmStats)

/-- First binding of a key, as Python dict lookup. -/
def lookupW : Weights → String → Option ArmStats
  | [], _ => none
  | (k', s) :: t, k => if k' = k then some s else lookupW t k

/-- Python `dict.setdefault`: keep an existing binding, else append a new one. -/
def setdefaultW (w : Weights) (k : String) (d : ArmStats) : Weights :=
  match lookupW w k with
  | some _ => w
  | none => w ++ [(k, d)]

/-- In-place mutation of the stats bound to `k` (Python mutates the dict value
aliased by `stats`). -/
def updW : Weights → String → (ArmStats → ArmStats) → Weights
  | [], _, _ => []
  | (k', s) :: t, k, f => if k' = k then (k', f s) :: t else (k', s) :: updW t k f

/-- Run configuration (`SessionConfig.json`): the keys read by the orchestrator
and selector, `Option` where the code supplies a `.get` default. -/
structure Config where
  macros : List String
  ci_minimum_score : Option ℚ
  loop_guard_N : Option ℕ
  loop_guard_epsilon : Option ℚ
  retry_max_attempts : Option ℕ
  retry_circuit_threshold : Option ℕ

/-- `config.get('ci', {}).get('minimum_score', 0.8)`. -/
def Config.minScore (c : Config) : ℚ := c.ci_minimum_score.getD (4 / 5)

/-- `config.get('loop_guard', {}).get('N', 3)`. -/
def Config.loopN (c : Config) : ℕ := c.loop_guard_N.getD 3

/-- `config.get('loop_guard', {}).get('epsilon', 0.02)`. -/
def Config.loopEps (c : Config) : ℚ := c.loop_guard_epsilon.getD (1 / 50)

/-- `config.get('retry', {}).get('max_attempts', 3)`. -/
def Config.maxAttempts (c : Config) : ℕ := c.retry_max_attempts.getD 3

/-- `config.get('retry', {}).get('circuit_threshold', 5)`. -/
def Config.circuitThreshold (c : Config) : ℕ := c.retry_circuit_threshold.getD 5

/-- Geometric decay of one arm's statistics (`choose`, lines 33-37). -/
def decayArm (d : ℚ) (s : ArmStats) : ArmStats :=
  ⟨s.successes * d, s.failures * d, s.plays * d, s.total_reward * d⟩

/-- Reward derived from a replayed history entry: the explicit `reward` value
when the key is present, else 1 if `score ≥ pass_threshold` (score defaulting
to 0), else 0 (`choose`, lines 47-50). -/
def entryReward (passT : ℚ) (e : HEntry) : ℚ :=
  match e.reward with
  | some r => r
  | none => if e.score.getD 0 ≥ passT then 1 else 0

/-- One step of the history-replay loop of `choose` (lines 43-57).  Entries
whose `macro` value is falsy (absent key, or the empty string) are skipped;
`if reward:` tests Python truthiness, i.e. `reward ≠ 0`. -/
def replayStep (passT : ℚ) (w : Weights) (e : HEntry) : Weights :=
  match e.macroName with
  | none => w
  | some m =>
    if m = "" then w
    else
      let r := entryReward passT e
      updW (setdefaultW w m priorArm) m (fun st =>
        { st with
          successes := st.successes + (if r ≠ 0 then 1 else 0)
          failures := st.failures + (if r = 0 then 1 else 0)
          plays := st.plays + 1
          total_reward := st.total_reward + r })

/-- The state-update phase of `BanditSelector.choose` (lines 32-57): decay all
tracked arms when the history is non-empty, lazily initialize every requested
macro with the uniform prior, then replay the history. -/
def chooseUpdate (d : ℚ) (w : Weights) (macros : List String) (history : List HEntry)
    (cfg : Config) : Weights :=
  let w1 := if history.isEmpty then w else w.map (fun p => (p.1, decayArm d p.2))
  let w2 := macros.foldl (fun acc m => setdefaultW acc m priorArm) w1
  history.foldl (replayStep cfg.minScore) w2

/-- The sampling/pick phase of `choose` (lines 59-75).  `orc i` stands for the
value `random.betavariate` returned for the `i`-th candidate; the exploration
bonus `1 / (1 + plays)` is added, and the strictly highest adjusted sample wins
(first encountered on ties).  After the update phase every candidate macro has
a weight entry, so the `getD priorArm` default is never taken where Python
would raise `KeyError`. -/
def pickPhase (w : Weights) (macros : List String) (orc : ℕ → ℚ) : Option String :=
  let r := macros.foldl
    (fun (acc : Option String × ℚ × ℕ) m =>
      let st := (lookupW w m).getD priorArm
      let sample := orc acc.2.2 + 1 / (1 + st.plays)
      if sample > acc.2.1 then (some m, sample, acc.2.2 + 1)
      else (acc.1, acc.2.1, acc.2.2 + 1))
    (none, -1, 0)
  match r.1 with
  | some m => some m
  | none => if macros.isEmpty then none else some (macros.headD "")

/-- Full `BanditSelector.choose`: update the weight store, then pick; returns
the chosen macro (Python returns `None`, modelled `none`, exactly when the
macro list is empty) together with the weight store that the call leaves
behind (and persists). -/
def chooseFull (d : ℚ) (w : Weights) (macros : List String) (history : List HEntry)
    (cfg : Config) (orc : ℕ → ℚ) : Option String × Weights :=
  let w' := chooseUpdate d w macros history cfg
  (pickPhase w' macros orc, w')

/-- The replay step exactly as claim C2 words it: every entry carrying a
`macro` field is replayed, and the arm is updated by `successes += reward`,
`failures += (1 - reward)`, `plays += 1`, `total_reward += reward`. -/
def claimReplayStep (passT : ℚ) (w : Weights) (e : HEntry) : Weights :=
  match e.macroName with
  | none => w
  | some m =>
    let r := entryReward passT e
    updW (setdefaultW w m priorArm) m (fun st =>
      ⟨st.successes + r, st.failures + (1 - r), st.plays + 1, st.total_reward + r⟩)

/-- The update phase exactly as claim C2 words it (decay and lazy
initialization as in the code, replay per `claimReplayStep`). -/
def claim_update (d : ℚ) (w : Weights) (macros : List String) (history : List HEntry)
    (cfg : Config) : Weights :=
  let w1 := if history.isEmpty then w else w.map (fun p => (p.1, decayArm d p.2))
  let w2 := macros.foldl (fun acc m => setdefaultW acc m priorArm) w1
  history.foldl (claimReplayStep cfg.minScore) w2

/-- The replay step of the amended claim: entries whose `macro` field is
absent or the empty string are skipped, and the update is `plays += 1`,
`total_reward += reward`, with `successes += 1` when the reward is nonzero and
`failures += 1` when it is zero. -/
def amendedReplayStep (passT : ℚ) (w : Weights) (e : HEntry) : Weights :=
  match e.macroName with
  | none => w
  | some m =>
    if m = "" then w
    else
      let r := entryReward passT e
      updW (setdefaultW w m priorArm) m (fun st =>
        ⟨st.successes + (if r ≠ 0 then 1 else 0),
          st.failures + (if r = 0 then 1 else 0),
          st.plays + 1, st.total_reward + r⟩)

/-- The update phase of the amended claim C2. -/
def amended_update (d : ℚ) (w : Weights) (macros : List String) (history : List HEntry)
    (cfg : Config) : Weights :=
  let w1 := if history.isEmpty then w else w.map (fun p => (p.1, decayArm d p.2))
  let w2 := macros.foldl (fun acc m => setdefaultW acc m priorArm) w1
  history.foldl (amendedReplayStep cfg.minScore) w2

/-- Workflow graph node (`WorkflowGraph.json`). -/
structure WNode where
  id : String
  label : String
  agent : String
  action : String
  type : String
deriving Repr, DecidableEq

/-- Workflow graph edge.  JSON keys `from`/`to` are Lean keywords, renamed
`src`/`dst`; an absent `condition` key is `none`. -/
structure WEdge where
  src : String
  dst : String
  condition : Option String
deriving Repr, DecidableEq

/-- Workflow graph document. -/
structure WGraph where
  entry_point : String
  nodes : List WNode
  edges : List WEdge

/-- The orchestrator's `self.state` dict: the only state node behaviors
(`_execute_node`) read and mutate.  `current_node = none` models Python
`None`. -/
structure SDict where
  current_node : Option String
  history : List HEntry
  last_score : ℚ
  output : Option String
  loop_iterations : ℕ

/-- Full orchestrator instance state: `self.state` plus the instance-level
`self.fail_counts` / `self.circuit_open` dicts, which node behaviors never
touch and which survive across runs of the same orchestrator. -/
structure OState where
  state : SDict
  fail_counts : String → ℕ
  circuit_open : String → Bool

/-- Fresh orchestrator state (`Orchestrator.__init__`). -/
def initState (g : WGraph) : OState :=
  ⟨⟨some g.entry_point, [], 0, none, 0⟩, fun _ => 0, fun _ => false⟩

/-- `Orchestrator.get_node_details`: first node with the given id. -/
def get_node_details (g : WGraph) (node_id : String) : Option WNode :=
  g.nodes.find? (fun n => n.id == node_id)

/-- `Orchestrator.get_next_node`: first edge matching
`(from = current, condition = condition)`, else the first edge from the
current node with no `condition` key, else `none` (no path forward). -/
def get_next_node (g : WGraph) (current_node_id : String) (condition : String) : Option String :=
  match g.edges.find? (fun e => e.src == current_node_id && e.condition == some condition) with
  | some e => some e.dst
  | none =>
    match g.edges.find? (fun e => e.src == current_node_id && e.condition.isNone) with
    | some e => some e.dst
    | none => none

/-- Result of one `_execute_node` call: the `action_result` /
`chosen_macro` pair plus the node behavior's mutation of `self.state`. -/
structure BehOut where
  action_result : String
  chosen : Option String
  st : SDict

/-- A node behavior as seen by the executor's retry wrapper: `none` models an
attempt that raises.  The behavior is a function of the node id and the state
dict, so "raises on every attempt" is `beh nid sd = none`. -/
abbrev Beh := String → SDict → Option BehOut

/-- Embedding of `Orchestrator._execute_node`.  `scoreOrc` stands for the
value of `_get_simulated_score` (a `random.uniform(0.7, 1.0)` draw) and
`macroOrc` for the macro the bandit's `choose_macro` call returns; Python's
`choose_macro` returns `None` exactly when the configured macro list is empty.
The `loop_detector` branch returns `none` where `detect_loop` raises. -/
def execute_node (cfg : Config) (scoreOrc : ℚ) (macroOrc : String) (nid : String)
    (s : SDict) : Option BehOut :=
  if nid = "build" then
    let chosenM : Option String := if cfg.macros.isEmpty then none else some macroOrc
    let outStr := "Output from " ++ (match chosenM with | some m => m | none => "None")
    some ⟨"success", chosenM,
      { s with output := some outStr, loop_iterations := s.loop_iterations + 1 }⟩
  else if nid = "review" then
    let score := scoreOrc
    let s1 := { s with last_score := score }
    if score ≥ cfg.minScore then
      some ⟨"score_passed", none, { s1 with loop_iterations := 0 }⟩
    else
      some ⟨"validation_failed", none, s1⟩
  else if nid = "loop_detector" then
    match detect_loop s.history cfg.loopN cfg.loopEps with
    | some b => some ⟨if b then "loop_detected" else "loop_not_detected", none, s⟩
    | none => none
  else if nid = "export" then
    some ⟨"__end__", none, s⟩
  else
    some ⟨"success", none, s⟩

/-- Pointwise update of a `fail_counts` dict. -/
def setCount (f : String → ℕ) (k : String) (v : ℕ) : String → ℕ :=
  fun x => if x = k then v else f x

/-- Mark a node's circuit breaker open. -/
def setOpen (f : String → Bool) (k : String) : String → Bool :=
  fun x => if x = k then true else f x

/-- The bounded-retry wrapper of `execute_graph` (lines 131-145): up to
`max_attempts` attempts of the node behavior.  The behavior is deterministic
in the state, so either the first attempt succeeds (and the node's failure
counter resets to 0) or all attempts fail (and the counter grows by one per
attempt, i.e. by `max_attempts`).  When `max_attempts = 0` the loop body
never runs and neither the state nor the counter changes. -/
def attemptNode (cfg : Config) (beh : Beh) (nid : String) (s : OState) :
    Option BehOut × OState :=
  if cfg.maxAttempts = 0 then (none, s)
  else
    match beh nid s.state with
    | some out =>
      (some out, ⟨out.st, setCount s.fail_counts nid 0, s.circuit_open⟩)
    | none =>
      (none, ⟨s.state, setCount s.fail_counts nid (s.fail_counts nid + cfg.maxAttempts),
        s.circuit_open⟩)

/-- Python truthiness filter for `if chosen_macro_for_history:` — the history
entry carries a `macro` key only for a non-`None`, non-empty chosen macro. -/
def truthyChoice : Option String → Option String
  | some m => if m = "" then none else some m
  | none => none

/-- The history entry appended at the end of an iteration (lines 158-166):
it records the node id, the action result, the value of
`self.state['last_score']` at that moment, and the chosen macro when truthy.
The wall-clock timestamp is abstracted to 0. -/
def mkEntry (nid result : String) (chosenM : Option String) (sd : SDict) : HEntry :=
  ⟨nid, result, some sd.last_score, 0, truthyChoice chosenM, none⟩

/-- Reason the `execute_graph` loop stops. -/
inductive HaltReason where
  | finished
  | noPathForward
  | graphIntegrity
  | circuitOpened
deriving Repr, DecidableEq

/-- Outcome of one iteration of the main loop: halt (with the state left
untouched by that iteration) or continue with the updated state. -/
inductive IterOut where
  | halt (reason : HaltReason) (s : OState)
  | cont (s : OState)

/-- End of a successful iteration (lines 153-168): edge resolution for the
behavior's result, history append, advance. -/
def succState (g : WGraph) (node : WNode) (out : BehOut) (s1 : OState) : OState :=
  ⟨{ s1.state with
      history := s1.state.history ++
        [mkEntry node.id out.action_result out.chosen s1.state]
      current_node := get_next_node g node.id out.action_result },
    s1.fail_counts, s1.circuit_open⟩

/-- End of a fully failed iteration (lines 147-168): open the circuit when the
cumulative failure counter has reached the threshold, then resolve edges for
the synthetic `failure` result, append the history entry and advance. -/
def failState (g : WGraph) (cfg : Config) (node : WNode) (s1 : OState) : OState :=
  let s2 := if cfg.circuitThreshold ≤ s1.fail_counts node.id
    then { s1 with circuit_open := setOpen s1.circuit_open node.id }
    else s1
  ⟨{ s2.state with
      history := s2.state.history ++ [mkEntry node.id "failure" none s2.state]
      current_node := get_next_node g node.id "failure" },
    s2.fail_counts, s2.circuit_open⟩

/-- Lines 147-168 of `execute_graph`: the iteration always continues after
node execution, with the successful or the synthetic-failure bookkeeping. -/
def contStep (g : WGraph) (cfg : Config) (node : WNode) :
    Option BehOut × OState → IterOut
  | (some out, s1) => .cont (succState g node out s1)
  | (none, s1) => .cont (failState g cfg node s1)

/-- One iteration of `Orchestrator.execute_graph` (lines 121-175), including
the `while` guard: unresolvable node ids halt fatally, an open circuit halts
the run before any attempt, and otherwise the retry wrapper runs and
`contStep` finishes the iteration. -/
def runStep (g : WGraph) (cfg : Config) (beh : Beh) (s : OState) : IterOut :=
  match s.state.current_node with
  | none => .halt .noPathForward s
  | some cur =>
    if cur = "__end__" then .halt .finished s
    else
      match get_node_details g cur with
      | none => .halt .graphIntegrity s
      | some node =>
        if s.circuit_open node.id then .halt .circuitOpened s
        else contStep g cfg node (attemptNode cfg beh node.id s)

/-- Fuel-bounded iteration of the main loop; `none` in the second component
means the fuel ran out before the run halted on its own. -/
def runLoop (g : WGraph) (cfg : Config) (beh : Beh) : ℕ → OState → OState × Option HaltReason
  | 0, s => (s, none)
  | Nat.succ n, s =>
    match runStep g cfg beh s with
    | .halt r s' => (s', some r)
    | .cont s' => runLoop g cfg beh n s'

/-- The concrete node behavior of the orchestrator: `_execute_node` with the
random draws supplied by oracles indexed by the iteration (one history entry
is appended per iteration, so the history length is the iteration index). -/
def behC (cfg : Config) (scoreOrc : ℕ → ℚ) (macroOrc : ℕ → String) : Beh :=
  fun nid sd => execute_node cfg (scoreOrc sd.history.length) (macroOrc sd.history.length) nid sd

/-- Score of the most recent `review` entry of a history, 0 when there is
none (the initial `last_score`). -/
def lastReviewScore (l : List HEntry) : ℚ :=
  match (l.filter (fun e => e.node == "review")).getLast? with
  | some e => e.score.getD 0
  | none => 0

/-- Claim C10's invariant on a run history: every `build` entry records the
score of the most recent prior `review` entry (0 when no review has
occurred). -/
def scoreInvariant (l : List HEntry) : Prop :=
  ∀ i, i < l.length → (l.getD i dummyEntry).node = "build" →
    (l.getD i dummyEntry).score = some (lastReviewScore (l.take i))

/-- Concrete history with one empty-string macro entry and one explicit
non-binary reward, exercising both divergences of claim C2. -/
def cHist : List HEntry := [
  ⟨"build", "success", some 1, 0, some "", none⟩,
  ⟨"build", "success", some 0, 0, some "A", some (1 / 2)⟩]

/-- Concrete configuration relying on every default. -/
def cCfg : Config := ⟨["A"], none, none, none, none, none⟩

/-- Concrete stagnating history: macro `A` three times, deltas ≤ 0.02. -/
def wHist : List HEntry := [
  ⟨"build", "", some (7 / 10), 0, some "A", none⟩,
  ⟨"build", "", some (71 / 100), 0, some "A", none⟩,
  ⟨"build", "", some (71 / 100), 0, some "A", none⟩]

/-- A behavior that raises on every attempt. -/
def behFail : Beh := fun _ _ => none

/-- One-node graph with no edges. -/
def g1 : WGraph := ⟨"b", [⟨"b", "", "", "", ""⟩], []⟩

/-- Fresh state at node `b`. -/
def sFresh : OState := initState g1

/-- State at node `b` whose circuit breaker for `b` is open. -/
def sOpen : OState := ⟨⟨some "b", [], 0, none, 0⟩, fun _ => 0, fun x => x == "b"⟩

/-- State with no current node (no path forward was taken). -/
def sNone : OState := ⟨⟨none, [], 0, none, 0⟩, fun _ => 0, fun _ => false⟩

/-- State at node `b` with a cumulative failure counter of 3 for `b`. -/
def sFresh3 : OState :=
  ⟨⟨some "b", [], 0, none, 0⟩, fun x => if x = "b" then 3 else 0, fun _ => false⟩

/-- State whose current node resolves to nothing in `g1`. -/
def sMissing : OState := ⟨⟨some "zz", [], 0, none, 0⟩, fun _ => 0, fun _ => false⟩

/-- Build → review → export pipeline graph. -/
def g2 : WGraph := ⟨"build",
  [⟨"build", "", "", "", ""⟩, ⟨"review", "", "", "", ""⟩, ⟨"export", "", "", "", ""⟩],
  [⟨"build", "review", some "success"⟩,
   ⟨"review", "export", some "score_passed"⟩,
   ⟨"review", "build", some "validation_failed"⟩]⟩

/-! Theorems. -/

/-- A run with no current node halts at once with no path forward. -/
theorem runStep_none (g : WGraph) (cfg : Config) (beh : Beh) (s : OState)
    (h : s.state.current_node = none) : runStep g cfg beh s = .halt .noPathForward s := by
  unfold runStep
  rw [h]

/-- C7: calling `choose` with an empty strategy set returns the `None`
sentinel rather than any unchecked pick, for every weight store, history,
configuration and sampling oracle. -/
theorem choose_empty_strategy_sentinel (d : ℚ) (w : Weights) (history : List HEntry)
    (cfg : Config) (orc : ℕ → ℚ) :
    (chooseFull d w [] history cfg orc).1 = none := rfl

/-- C9: the arm-statistics update of `choose` is deterministic — two calls
started from equal weight stores and given the same strategies, history and
configuration leave identical weight stores, whatever values the stochastic
Beta sampling oracle produces in either call.  The pick phase reads the
weights but never writes them, so the resulting store does not depend on the
oracle at all. -/
theorem choose_update_deterministic (d : ℚ) (w w' : Weights) (macros : List String)
    (history : List HEntry) (cfg : Config) (orc orc' : ℕ → ℚ) (h : w = w') :
    (chooseFull d w macros history cfg orc).2 = (chooseFull d w' macros history cfg orc').2 := by
  subst h
  rfl

/-- Witness for C9 at concrete inputs with two different sampling oracles. -/
theorem choose_update_deterministic_witness :
    (chooseFull (9 / 10) [] ["A"] cHist cCfg (fun _ => 0)).2
      = (chooseFull (9 / 10) [] ["A"] cHist cCfg (fun _ => 1)).2 :=
  choose_update_deterministic (9 / 10) [] [] ["A"] cHist cCfg (fun _ => 0) (fun _ => 1) rfl

/-- Counterexample to C2 as stated: on a history containing an entry with an
empty-string `macro` (skipped by the code, but "carrying a macro field") and
an entry with the explicit non-binary reward 1/2 (for which the code adds 1 to
`successes`, not the reward), the weight store the code produces differs from
the one the claim describes. -/
theorem choose_update_claim_counterexample :
    chooseUpdate (9 / 10) [] ["A"] cHist cCfg ≠ claim_update (9 / 10) [] ["A"] cHist cCfg := by
  have h1 : chooseUpdate (9 / 10) [] ["A"] cHist cCfg = [("A", ⟨2, 1, 1, 1 / 2⟩)] := by
    simp [chooseUpdate, cHist, cCfg, replayStep, entryReward, setdefaultW, lookupW, updW,
      Config.minScore, priorArm]
    norm_num
  have h2 : claim_update (9 / 10) [] ["A"] cHist cCfg
      = [("A", ⟨3 / 2, 3 / 2, 1, 1 / 2⟩), ("", ⟨2, 1, 1, 1⟩)] := by
    simp [claim_update, cHist, cCfg, claimReplayStep, entryReward, setdefaultW, lookupW, updW,
      Config.minScore, priorArm]
    norm_num
  intro h
  rw [h1, h2] at h
  simp at h

/-- C2 as amended: on every call, the update phase of `choose` decays every
tracked arm when the history is non-empty, initializes every requested but
untracked strategy with the uniform prior, and then, for each history entry
carrying a non-empty `macro` field, updates that macro's arm by
`plays += 1`, `total_reward += reward`, and `successes += 1` when the derived
reward is nonzero, else `failures += 1`. -/
theorem choose_update_matches_amended (d : ℚ) (w : Weights) (macros : List String)
    (history : List HEntry) (cfg : Config) :
    chooseUpdate d w macros history cfg = amended_update d w macros history cfg := rfl

/-- C4: executing the `review` node with obtained score `sc` sets
`last_score` to `sc`, yields result `score_passed` when `sc` is at least the
configured minimum score and `validation_failed` otherwise, and resets
`loop_iterations` to zero exactly on a pass (leaving it unchanged on
failure); history and output are untouched by `review`. -/
theorem review_node_semantics (cfg : Config) (sc : ℚ) (mo : String) (sd : SDict) :
    ∃ out, execute_node cfg sc mo "review" sd = some out ∧
      out.st.last_score = sc ∧
      out.action_result = (if cfg.minScore ≤ sc then "score_passed" else "validation_failed") ∧
      out.st.loop_iterations = (if cfg.minScore ≤ sc then 0 else sd.loop_iterations) ∧
      out.st.history = sd.history ∧
      out.st.output = sd.output := by
  by_cases h : cfg.minScore ≤ sc
  · exact ⟨⟨"score_passed", none, { sd with last_score := sc, loop_iterations := 0 }⟩,
      by simp [execute_node, ge_iff_le, h], rfl, by simp [h], by simp [h], rfl, rfl⟩
  · exact ⟨⟨"validation_failed", none, { sd with last_score := sc }⟩,
      by simp [execute_node, ge_iff_le, h], rfl, by simp [h], by simp [h], rfl, rfl⟩

/-- Reaching an executable node (resolvable, not terminal) whose circuit is
closed reduces one iteration to the retry wrapper followed by `contStep`. -/
theorem runStep_exec (g : WGraph) (cfg : Config) (beh : Beh) (s : OState)
    (node : WNode) (cur : String)
    (hcur : s.state.current_node = some cur) (hend : cur ≠ "__end__")
    (hnode : get_node_details g cur = some node)
    (hopen : s.circuit_open node.id = false) :
    runStep g cfg beh s = contStep g cfg node (attemptNode cfg beh node.id s) := by
  simp only [runStep, hcur]
  rw [if_neg hend]
  simp only [hnode, hopen]
  simp

/-- Reaching an executable node whose circuit is open halts the run with the
state untouched. -/
theorem runStep_open (g : WGraph) (cfg : Config) (beh : Beh) (s : OState)
    (node : WNode) (cur : String)
    (hcur : s.state.current_node = some cur) (hend : cur ≠ "__end__")
    (hnode : get_node_details g cur = some node)
    (hopen : s.circuit_open node.id = true) :
    runStep g cfg beh s = .halt .circuitOpened s := by
  simp only [runStep, hcur]
  rw [if_neg hend]
  simp only [hnode, hopen]
  simp

/-- A behavior that raises makes the whole retry loop fail, adding one per
attempt — `max_attempts` in total — to the node's failure counter. -/
theorem attemptNode_fail (cfg : Config) (beh : Beh) (nid : String) (s : OState)
    (hfail : beh nid s.state = none) (hm : 1 ≤ cfg.maxAttempts) :
    attemptNode cfg beh nid s =
      (none, ⟨s.state, setCount s.fail_counts nid (s.fail_counts nid + cfg.maxAttempts),
        s.circuit_open⟩) := by
  unfold attemptNode
  rw [if_neg (by omega), hfail]

/-- The retry wrapper never touches the circuit-breaker dict. -/
theorem attemptNode_circuit (cfg : Config) (beh : Beh) (nid : String) (s : OState) :
    (attemptNode cfg beh nid s).2.circuit_open = s.circuit_open := by
  unfold attemptNode
  split
  · rfl
  · split <;> rfl

/-- Projections of the failed-iteration bookkeeping: the history gains the
synthetic `failure` entry, the next node comes from edge resolution on
`failure`, and score and failure counters pass through. -/
theorem failState_state (g : WGraph) (cfg : Config) (node : WNode) (s1 : OState) :
    (failState g cfg node s1).state.history
        = s1.state.history ++ [mkEntry node.id "failure" none s1.state] ∧
      (failState g cfg node s1).state.current_node = get_next_node g node.id "failure" ∧
      (failState g cfg node s1).state.last_score = s1.state.last_score ∧
      (failState g cfg node s1).fail_counts = s1.fail_counts := by
  unfold failState
  by_cases ht : cfg.circuitThreshold ≤ s1.fail_counts node.id <;> simp [ht]

/-- Circuit value left by the failed-iteration bookkeeping. -/
theorem failState_circuit (g : WGraph) (cfg : Config) (node : WNode) (s1 : OState)
    (x : String) :
    (failState g cfg node s1).circuit_open x
      = (if cfg.circuitThreshold ≤ s1.fail_counts node.id
          then setOpen s1.circuit_open node.id x else s1.circuit_open x) := by
  unfold failState
  by_cases ht : cfg.circuitThreshold ≤ s1.fail_counts node.id <;> simp [ht]

/-- No iteration ever closes an open circuit: `circuit_open` entries are only
ever set, never cleared. -/
theorem runStep_circuit_monotone (g : WGraph) (cfg : Config) (beh : Beh)
    (s s' : OState) (x : String)
    (hx : s.circuit_open x = true) (h : runStep g cfg beh s = .cont s') :
    s'.circuit_open x = true := by
  unfold runStep at h
  split at h
  · exact IterOut.noConfusion h
  · split at h
    · exact IterOut.noConfusion h
    · split at h
      · exact IterOut.noConfusion h
      · split at h
        · exact IterOut.noConfusion h
        · rename_i cur node hnode hopen
          rcases hatt : attemptNode cfg beh node.id s with ⟨res, s1⟩
          have hcirc : s1.circuit_open = s.circuit_open := by
            have := attemptNode_circuit cfg beh node.id s
            rw [hatt] at this
            exact this
          rw [hatt] at h
          cases res with
          | some out =>
            cases h
            simp [succState, hcirc, hx]
          | none =>
            cases h
            rw [failState_circuit]
            by_cases ht : cfg.circuitThreshold ≤ s1.fail_counts node.id <;>
              simp [ht, setOpen, hcirc, hx]

/-- C8: when the current node id resolves to no node of the graph, the run
halts at once with the fatal `GraphIntegrityError`, with the state — history
included — untouched and no behavior executed (the halt does not depend on
`beh`). -/
theorem missing_node_halts (g : WGraph) (cfg : Config) (beh : Beh) (s : OState)
    (cur : String)
    (hcur : s.state.current_node = some cur) (hend : cur ≠ "__end__")
    (habs : get_node_details g cur = none) :
    runStep g cfg beh s = .halt .graphIntegrity s ∧
    ∀ n, runLoop g cfg beh (n + 1) s = (s, some HaltReason.graphIntegrity) := by
  have hstep : runStep g cfg beh s = .halt .graphIntegrity s := by
    simp only [runStep, hcur]
    rw [if_neg hend]
    simp only [habs]
  exact ⟨hstep, fun n => by simp [runLoop, hstep]⟩

/-- Witness for C8 at a concrete malformed state. -/
theorem missing_node_halts_witness :
    runStep g1 cCfg behFail sMissing = .halt .graphIntegrity sMissing ∧
    ∀ n, runLoop g1 cCfg behFail (n + 1) sMissing = (sMissing, some HaltReason.graphIntegrity) :=
  missing_node_halts g1 cCfg behFail sMissing "zz" rfl (by decide) rfl

/-- C6: an iteration whose node behavior raises on every attempt propagates no
exception — `runStep` is total and continues — records the synthetic
`failure` result in a history entry that is still appended, and proceeds to
edge resolution on `failure`, halting gracefully with `NoPathForward` on the
next iteration when no edge matches. -/
theorem failed_iteration_graceful (g : WGraph) (cfg : Config) (beh : Beh) (s : OState)
    (node : WNode) (cur : String)
    (hcur : s.state.current_node = some cur) (hend : cur ≠ "__end__")
    (hnode : get_node_details g cur = some node)
    (hopen : s.circuit_open node.id = false)
    (hfail : beh node.id s.state = none) :
    ∃ s', runStep g cfg beh s = .cont s' ∧
      s'.state.history = s.state.history ++
        [⟨node.id, "failure", some s.state.last_score, 0, none, none⟩] ∧
      s'.state.current_node = get_next_node g node.id "failure" ∧
      (s'.state.current_node = none → runStep g cfg beh s' = .halt .noPathForward s') := by
  have hstep := runStep_exec g cfg beh s node cur hcur hend hnode hopen
  have hs1 : ∃ s1, attemptNode cfg beh node.id s = (none, s1) ∧ s1.state = s.state := by
    unfold attemptNode
    by_cases hm : cfg.maxAttempts = 0
    · rw [if_pos hm]
      exact ⟨s, rfl, rfl⟩
    · rw [if_neg hm, hfail]
      exact ⟨_, rfl, rfl⟩
  obtain ⟨s1, hatt, hs1⟩ := hs1
  rw [hatt] at hstep
  refine ⟨failState g cfg node s1, by rw [hstep]; rfl, ?_, ?_, ?_⟩
  · rw [(failState_state g cfg node s1).1, hs1]
    simp [mkEntry, truthyChoice]
  · exact (failState_state g cfg node s1).2.1
  · intro hnone
    exact runStep_none g cfg beh _ hnone

/-- Witness for C6 at a concrete always-raising node. -/
theorem failed_iteration_graceful_witness :
    ∃ s', runStep g1 cCfg behFail sFresh = .cont s' ∧
      s'.state.history = sFresh.state.history ++
        [⟨"b", "failure", some sFresh.state.last_score, 0, none, none⟩] ∧
      s'.state.current_node = get_next_node g1 "b" "failure" ∧
      (s'.state.current_node = none → runStep g1 cCfg behFail s' = .halt .noPathForward s') :=
  failed_iteration_graceful g1 cCfg behFail sFresh ⟨"b", "", "", "", ""⟩ "b"
    rfl (by decide) rfl rfl rfl

/-- C5: for a node reachable in the current state, (1) an open circuit halts
the run immediately — for every behavior, so nothing is attempted — and keeps
halting it; (2) a fully failed execution of an always-raising behavior adds
`max_attempts` to the node's cumulative failure counter and leaves the
circuit open exactly when that counter has reached `circuit_threshold`; and
(3) an open circuit stays open across every continuing iteration — sticky for
the remainder of the process, with no half-open recovery. -/
theorem circuit_breaker (g : WGraph) (cfg : Config) (beh : Beh) (s : OState)
    (node : WNode) (cur : String)
    (hcur : s.state.current_node = some cur) (hend : cur ≠ "__end__")
    (hnode : get_node_details g cur = some node) :
    (s.circuit_open node.id = true →
      runStep g cfg beh s = .halt .circuitOpened s ∧
      ∀ n, runLoop g cfg beh (n + 1) s = (s, some HaltReason.circuitOpened)) ∧
    (s.circuit_open node.id = false → beh node.id s.state = none → 1 ≤ cfg.maxAttempts →
      ∃ s', runStep g cfg beh s = .cont s' ∧
        s'.fail_counts node.id = s.fail_counts node.id + cfg.maxAttempts ∧
        (s'.circuit_open node.id = true ↔
          cfg.circuitThreshold ≤ s.fail_counts node.id + cfg.maxAttempts)) ∧
    (∀ x s', s.circuit_open x = true → runStep g cfg beh s = .cont s' →
      s'.circuit_open x = true) := by
  refine ⟨?_, ?_, ?_⟩
  · intro hopen
    have hstep := runStep_open g cfg beh s node cur hcur hend hnode hopen
    exact ⟨hstep, fun n => by simp [runLoop, hstep]⟩
  · intro hopen hfail hm
    have hstep := runStep_exec g cfg beh s node cur hcur hend hnode hopen
    rw [attemptNode_fail cfg beh node.id s hfail hm] at hstep
    refine ⟨_, by rw [hstep]; rfl, ?_, ?_⟩
    · rw [(failState_state g cfg node _).2.2.2]
      simp [setCount]
    · rw [failState_circuit]
      simp only [setCount, if_pos rfl]
      by_cases ht : cfg.circuitThreshold ≤ s.fail_counts node.id + cfg.maxAttempts <;>
        simp [ht, setOpen, hopen]
  · intro x s' hx hstep'
    exact runStep_circuit_monotone g cfg beh s s' x hx hstep'

/-- Witness for C5: with defaults (`max_attempts` 3, `circuit_threshold` 5)
and an always-raising behavior at node `b`, an open circuit halts the run at
once, and a fully failed iteration from a counter of 3 opens the circuit at
6 ≥ 5. -/
theorem circuit_breaker_witness :
    (runStep g1 cCfg behFail sOpen = .halt .circuitOpened sOpen) ∧
    ∃ s', runStep g1 cCfg behFail sFresh3 = .cont s' ∧
      s'.fail_counts "b" = 6 ∧ s'.circuit_open "b" = true := by
  constructor
  · exact ((circuit_breaker g1 cCfg behFail sOpen ⟨"b", "", "", "", ""⟩ "b"
      rfl (by decide) rfl).1 rfl).1
  · obtain ⟨s', h1, h2, h3⟩ := (circuit_breaker g1 cCfg behFail sFresh3 ⟨"b", "", "", "", ""⟩ "b"
      rfl (by decide) rfl).2.1 rfl rfl (by decide)
    exact ⟨s', h1, h2, h3.2 (by decide)⟩

/-- C3: next-node resolution returns the target of an edge from the current
node whose condition equals the result; failing that, the target of the first
condition-free edge from the current node; and when neither exists it returns
`none`, in which case the run halts with `NoPathForward` — it merely stops
advancing, with the state untouched. -/
theorem next_node_resolution (g : WGraph) (cur res : String) :
    (∀ t, get_next_node g cur res = some t →
      (∃ e ∈ g.edges, e.src = cur ∧ e.condition = some res ∧ e.dst = t) ∨
      ((¬ ∃ e ∈ g.edges, e.src = cur ∧ e.condition = some res) ∧
        ∃ e, g.edges.find? (fun e' => e'.src == cur && e'.condition.isNone) = some e ∧
          e.dst = t)) ∧
    (get_next_node g cur res = none ↔
      (¬ ∃ e ∈ g.edges, e.src = cur ∧ e.condition = some res) ∧
      (¬ ∃ e ∈ g.edges, e.src = cur ∧ e.condition = none)) ∧
    (∀ cfg beh s, s.state.current_node = none →
      runStep g cfg beh s = .halt .noPathForward s) := by
  refine ⟨?_, ?_, fun cfg beh s h => runStep_none g cfg beh s h⟩
  · intro t ht
    unfold get_next_node at ht
    cases h1 : g.edges.find? (fun e => e.src == cur && e.condition == some res) with
    | some e =>
      simp only [h1, Option.some.injEq] at ht
      have hp := List.find?_some h1
      simp only [Bool.and_eq_true, beq_iff_eq] at hp
      exact Or.inl ⟨e, List.mem_of_find?_eq_some h1, hp.1, hp.2, ht⟩
    | none =>
      simp only [h1] at ht
      refine Or.inr ⟨?_, ?_⟩
      · rintro ⟨e, hmem, h2, h3⟩
        have hne := List.find?_eq_none.mp h1 e hmem
        simp [h2, h3] at hne
      · cases h2 : g.edges.find? (fun e' => e'.src == cur && e'.condition.isNone) with
        | some e =>
          simp only [h2, Option.some.injEq] at ht
          exact ⟨e, rfl, ht⟩
        | none => simp [h2] at ht
  · unfold get_next_node
    cases h1 : g.edges.find? (fun e => e.src == cur && e.condition == some res) with
    | some e =>
      simp only [h1]
      constructor
      · intro h
        exact absurd h (by simp)
      · rintro ⟨hno, _⟩
        exfalso
        apply hno
        have hp := List.find?_some h1
        simp only [Bool.and_eq_true, beq_iff_eq] at hp
        exact ⟨e, List.mem_of_find?_eq_some h1, hp.1, hp.2⟩
    | none =>
      cases h2 : g.edges.find? (fun e' => e'.src == cur && e'.condition.isNone) with
      | some e =>
        simp only [h1, h2]
        constructor
        · intro h
          exact absurd h (by simp)
        · rintro ⟨_, hno⟩
          exfalso
          apply hno
          have hp := List.find?_some h2
          simp only [Bool.and_eq_true, beq_iff_eq, Option.isNone_iff_eq_none] at hp
          exact ⟨e, List.mem_of_find?_eq_some h2, hp.1, hp.2⟩
      | none =>
        simp only [h1, h2]
        constructor
        · intro _
          constructor
          · rintro ⟨e, hmem, h3, h4⟩
            have hne := List.find?_eq_none.mp h1 e hmem
            simp [h3, h4] at hne
          · rintro ⟨e, hmem, h3, h4⟩
            have hne := List.find?_eq_none.mp h2 e hmem
            simp [h3, h4] at hne
        · intro _
          trivial

/-- Witness for C3's halt clause at a concrete stuck state. -/
theorem next_node_resolution_witness :
    runStep g1 cCfg behFail sNone = .halt .noPathForward sNone :=
  (next_node_resolution g1 "b" "failure").2.2 cCfg behFail sNone rfl

/-- Python slice semantics for a nonzero count. -/
theorem pySliceLast_eq (n : ℕ) (l : List HEntry) (h : n ≠ 0) :
    pySliceLast n l = l.drop (l.length - n) := by
  unfold pySliceLast
  rw [if_neg h]

/-- A scan for a pairwise delta exceeding the bound is the negation of all
pairwise deltas staying within it. -/
theorem any_gt_eq_not_all_le (l : List ℕ) (f : ℕ → ℚ) (ε : ℚ) :
    (l.any fun i => decide (f i > ε)) = !(l.all fun i => decide (f i ≤ ε)) := by
  induction l with
  | nil => rfl
  | cons a t ih =>
    simp only [List.any_cons, List.all_cons, ih, Bool.not_and]
    congr 1
    rw [← decide_not]
    exact decide_eq_decide.mpr not_le.symm

/-- C1: for every history, every window size `N ≥ 1` (the run configuration
requires `window_size N ≥ 1`) and every epsilon, `detect_loop` returns —
without raising — exactly the specified value: true if the history filtered to
`build` entries carrying a macro has at least `N` entries whose last `N` all
share one macro with no consecutive score delta exceeding epsilon, and false
in every other case. -/
theorem detect_loop_meets_spec (history : List HEntry) (N : ℕ) (ε : ℚ) (hN : 1 ≤ N) :
    detect_loop history N ε = some (detect_loop_spec history N ε) := by
  have hN0 : N ≠ 0 := by omega
  simp only [detect_loop, detect_loop_spec, pySliceLast_eq _ _ hN0]
  by_cases hlt : (history.filter fun h => h.node == "build" && h.macroName.isSome).length < N
  · rw [if_pos hlt]
    have hle : ¬ (N ≤
        (history.filter fun h => h.node == "build" && h.macroName.isSome).length) := by
      omega
    simp [hle]
  · rw [if_neg hlt]
    have hle : N ≤ (history.filter fun h => h.node == "build" && h.macroName.isSome).length :=
      Nat.not_lt.mp hlt
    have hlen : ((history.filter fun h => h.node == "build" && h.macroName.isSome).drop
        ((history.filter fun h => h.node == "build" && h.macroName.isSome).length - N)).length
        = N := by
      rw [List.length_drop]
      omega
    cases hR : (history.filter fun h => h.node == "build" && h.macroName.isSome).drop
        ((history.filter fun h => h.node == "build" && h.macroName.isSome).length - N) with
    | nil =>
      rw [hR] at hlen
      simp at hlen
      omega
    | cons a t =>
      have hdec : decide (N ≤
          (history.filter fun h => h.node == "build" && h.macroName.isSome).length) = true :=
        decide_eq_true hle
      rw [any_gt_eq_not_all_le (List.range (N - 1))
        (fun i => ((a :: t).getD (i + 1) dummyEntry).score.getD 0
          - ((a :: t).getD i dummyEntry).score.getD 0) ε]
      simp only [hdec, sameMacroRun, List.all_cons, beq_self_eq_true, Bool.true_and]
      cases hA : t.all (fun x => x.macroName == a.macroName) <;>
        cases hC : (List.range (N - 1)).all (fun i =>
            decide (((a :: t).getD (i + 1) dummyEntry).score.getD 0
              - ((a :: t).getD i dummyEntry).score.getD 0 ≤ ε)) <;>
          simp [hA, hC]

/-- Witness for C1 on the specification's stagnation example, where the
detector fires. -/
theorem detect_loop_meets_spec_witness :
    detect_loop wHist 3 (1 / 50) = some (detect_loop_spec wHist 3 (1 / 50)) ∧
    detect_loop wHist 3 (1 / 50) = some true := by
  constructor
  · exact detect_loop_meets_spec wHist 3 (1 / 50) (by decide)
  · norm_num [detect_loop, wHist, pySliceLast, dummyEntry, List.range_succ]

/-- Appending a non-review entry leaves the last review score unchanged. -/
theorem lastReviewScore_append_other (l : List HEntry) (e : HEntry)
    (h : e.node ≠ "review") : lastReviewScore (l ++ [e]) = lastReviewScore l := by
  unfold lastReviewScore
  rw [List.filter_append]
  have hb : (e.node == "review") = false := beq_eq_false_iff_ne.mpr h
  simp [List.filter, hb]

/-- Appending a review entry makes its score the last review score. -/
theorem lastReviewScore_append_review (l : List HEntry) (e : HEntry)
    (h : e.node = "review") : lastReviewScore (l ++ [e]) = e.score.getD 0 := by
  unfold lastReviewScore
  rw [List.filter_append]
  have hb : (e.node == "review") = true := beq_iff_eq.mpr h
  simp only [List.filter, hb]
  rw [List.getLast?_concat]

/-- The C10 invariant survives appending an entry whose score is the current
last review score whenever the entry is a `build` one. -/
theorem scoreInvariant_append (l : List HEntry) (e : HEntry)
    (h1 : scoreInvariant l)
    (h2 : e.node = "build" → e.score = some (lastReviewScore l)) :
    scoreInvariant (l ++ [e]) := by
  intro i hi hb
  rw [List.length_append, List.length_singleton] at hi
  rcases Nat.lt_or_ge i l.length with hlt | hge
  · rw [List.getD_append _ _ _ _ hlt] at hb ⊢
    rw [List.take_append_of_le_length (Nat.le_of_lt hlt)]
    exact h1 i hlt hb
  · have hieq : i = l.length := by omega
    subst hieq
    rw [List.getD_append_right _ _ _ _ hge] at hb ⊢
    simp only [Nat.sub_self, List.getD, List.get?_cons_zero] at hb ⊢
    rw [List.take_append_of_le_length (Nat.le_refl _)]
    simp only [List.take_length]
    exact h2 hb

/-- Every node behavior of `_execute_node` leaves the history untouched, and
only the `review` branch writes `last_score`. -/
theorem execute_node_frame (cfg : Config) (sc : ℚ) (mo : String) (nid : String)
    (sd : SDict) (out : BehOut) (h : execute_node cfg sc mo nid sd = some out) :
    out.st.history = sd.history ∧ (nid ≠ "review" → out.st.last_score = sd.last_score) := by
  unfold execute_node at h
  by_cases h1 : nid = "build"
  · rw [if_pos h1] at h
    cases h
    exact ⟨rfl, fun _ => rfl⟩
  · rw [if_neg h1] at h
    by_cases h2 : nid = "review"
    · rw [if_pos h2] at h
      by_cases h3 : sc ≥ cfg.minScore
      · rw [if_pos h3] at h
        cases h
        exact ⟨rfl, fun hne => absurd h2 hne⟩
      · rw [if_neg h3] at h
        cases h
        exact ⟨rfl, fun hne => absurd h2 hne⟩
    · rw [if_neg h2] at h
      by_cases h3 : nid = "loop_detector"
      · rw [if_pos h3] at h
        cases hdl : detect_loop sd.history cfg.loopN cfg.loopEps with
        | some b =>
          rw [hdl] at h
          cases h
          exact ⟨rfl, fun _ => rfl⟩
        | none =>
          rw [hdl] at h
          exact Option.noConfusion h
      · rw [if_neg h3] at h
        by_cases h4 : nid = "export"
        · rw [if_pos h4] at h
          cases h
          exact ⟨rfl, fun _ => rfl⟩
        · rw [if_neg h4] at h
          cases h
          exact ⟨rfl, fun _ => rfl⟩

/-- The retry wrapper either fails wholesale with the state dict untouched, or
returns the behavior's own output state. -/
theorem attemptNode_cases (cfg : Config) (beh : Beh) (nid : String) (s : OState)
    (res : Option BehOut) (s1 : OState) (h : attemptNode cfg beh nid s = (res, s1)) :
    (res = none ∧ s1.state = s.state) ∨
    (∃ out, res = some out ∧ beh nid s.state = some out ∧ s1.state = out.st) := by
  unfold attemptNode at h
  split at h
  · cases h
    exact Or.inl ⟨rfl, rfl⟩
  · split at h
    · rename_i out hbeh
      cases h
      exact Or.inr ⟨out, rfl, hbeh, rfl⟩
    · cases h
      exact Or.inl ⟨rfl, rfl⟩

/-- The post-execution bookkeeping always continues the loop. -/
theorem contStep_cont (g : WGraph) (cfg : Config) (node : WNode)
    (p : Option BehOut × OState) : ∃ s', contStep g cfg node p = .cont s' := by
  rcases p with ⟨res, s1⟩
  cases res with
  | some out => exact ⟨_, rfl⟩
  | none => exact ⟨_, rfl⟩

/-- Halting iterations leave the state untouched. -/
theorem runStep_halt_eq (g : WGraph) (cfg : Config) (beh : Beh) (s : OState)
    (r : HaltReason) (s' : OState) (h : runStep g cfg beh s = .halt r s') : s' = s := by
  unfold runStep at h
  split at h
  · cases h
    rfl
  · split at h
    · cases h
      rfl
    · split at h
      · cases h
        rfl
      · split at h
        · cases h
          rfl
        · rename_i node heq hcirc
          obtain ⟨s'', hc⟩ := contStep_cont g cfg node (attemptNode cfg beh node.id s)
          rw [hc] at h
          exact IterOut.noConfusion h

/-- A continuing iteration arises from the bookkeeping of some node. -/
theorem runStep_cont_shape (g : WGraph) (cfg : Config) (beh : Beh) (s s' : OState)
    (h : runStep g cfg beh s = .cont s') :
    ∃ node, contStep g cfg node (attemptNode cfg beh node.id s) = .cont s' := by
  unfold runStep at h
  split at h
  · exact IterOut.noConfusion h
  · split at h
    · exact IterOut.noConfusion h
    · split at h
      · exact IterOut.noConfusion h
      · split at h
        · exact IterOut.noConfusion h
        · rename_i node heq hcirc
          exact ⟨node, h⟩

/-- One continuing iteration preserves the C10 invariant, for any behavior
that keeps the history and touches `last_score` only at the `review` node —
as `_execute_node` does. -/
theorem runStep_cont_preserves (g : WGraph) (cfg : Config) (beh : Beh)
    (hbeh : ∀ nid sd out, beh nid sd = some out →
      out.st.history = sd.history ∧ (nid ≠ "review" → out.st.last_score = sd.last_score))
    (s s' : OState)
    (h1 : s.state.last_score = lastReviewScore s.state.history)
    (h2 : scoreInvariant s.state.history)
    (h : runStep g cfg beh s = .cont s') :
    s'.state.last_score = lastReviewScore s'.state.history ∧
    scoreInvariant s'.state.history := by
  obtain ⟨node, hc⟩ := runStep_cont_shape g cfg beh s s' h
  rcases hatt : attemptNode cfg beh node.id s with ⟨res, s1⟩
  rw [hatt] at hc
  rcases attemptNode_cases cfg beh node.id s res s1 hatt with ⟨hres, hs1⟩ | ⟨out, hres, hbeh', hs1⟩
  · subst hres
    have hs' : s' = failState g cfg node s1 := by
      cases hc
      rfl
    subst hs'
    have hhist := (failState_state g cfg node s1).1
    have hls := (failState_state g cfg node s1).2.2.1
    rw [hs1] at hhist hls
    constructor
    · rw [hls, hhist]
      by_cases hnid : node.id = "review"
      · rw [lastReviewScore_append_review _ _ hnid]
        rfl
      · rw [lastReviewScore_append_other _ _ hnid]
        exact h1
    · rw [hhist]
      exact scoreInvariant_append _ _ h2 (fun _ => congrArg some h1)
  · subst hres
    have hs' : s' = succState g node out s1 := by
      cases hc
      rfl
    subst hs'
    obtain ⟨hout_hist, hout_ls⟩ := hbeh node.id s.state out hbeh'
    have hhist : (succState g node out s1).state.history
        = s.state.history ++ [mkEntry node.id out.action_result out.chosen out.st] := by
      show s1.state.history ++ _ = _
      rw [hs1, hout_hist]
    have hls : (succState g node out s1).state.last_score = out.st.last_score := by
      show s1.state.last_score = _
      rw [hs1]
    constructor
    · rw [hls, hhist]
      by_cases hnid : node.id = "review"
      · rw [lastReviewScore_append_review _ _ hnid]
        rfl
      · rw [lastReviewScore_append_other _ _ hnid]
        rw [hout_ls hnid]
        exact h1
    · rw [hhist]
      refine scoreInvariant_append _ _ h2 (fun hb => ?_)
      have hnid : node.id ≠ "review" := by
        have hEb : node.id = "build" := hb
        rw [hEb]
        decide
      show some out.st.last_score = _
      rw [hout_ls hnid, h1]

/-- The C10 invariant holds after any number of iterations from any state
satisfying it. -/
theorem runLoop_preserves (g : WGraph) (cfg : Config) (beh : Beh)
    (hbeh : ∀ nid sd out, beh nid sd = some out →
      out.st.history = sd.history ∧ (nid ≠ "review" → out.st.last_score = sd.last_score))
    (fuel : ℕ) :
    ∀ s : OState, s.state.last_score = lastReviewScore s.state.history →
      scoreInvariant s.state.history →
      (runLoop g cfg beh fuel s).1.state.last_score
        = lastReviewScore (runLoop g cfg beh fuel s).1.state.history ∧
      scoreInvariant (runLoop g cfg beh fuel s).1.state.history := by
  induction fuel with
  | zero =>
    intro s h1 h2
    exact ⟨h1, h2⟩
  | succ n ih =>
    intro s h1 h2
    cases hstep : runStep g cfg beh s with
    | halt r s' =>
      have heq : runLoop g cfg beh (n + 1) s = (s', some r) := by
        simp [runLoop, hstep]
      rw [heq]
      have hss : s' = s := runStep_halt_eq g cfg beh s r s' hstep
      subst hss
      exact ⟨h1, h2⟩
    | cont s' =>
      have heq : runLoop g cfg beh (n + 1) s = runLoop g cfg beh n s' := by
        simp [runLoop, hstep]
      rw [heq]
      obtain ⟨h1', h2'⟩ := runStep_cont_preserves g cfg beh hbeh s s' h1 h2 hstep
      exact ih s' h1' h2'

/-- C10: in every run of the orchestrator — any graph, configuration, random
draws and fuel — every `build` history entry records as its score the value of
the most recent prior `review` entry (0.0 when none has occurred), never a
score of the artifact built in that same iteration; every entry records the
`last_score` in force at the moment it is appended. -/
theorem build_entries_carry_prior_review_score (g : WGraph) (cfg : Config)
    (scoreOrc : ℕ → ℚ) (macroOrc : ℕ → String) (fuel : ℕ) :
    scoreInvariant
      ((runLoop g cfg (behC cfg scoreOrc macroOrc) fuel (initState g)).1.state.history) := by
  have hbeh : ∀ nid sd out, behC cfg scoreOrc macroOrc nid sd = some out →
      out.st.history = sd.history ∧ (nid ≠ "review" → out.st.last_score = sd.last_score) :=
    fun nid sd out h => execute_node_frame cfg _ _ nid sd out h
  have h1 : (initState g).state.last_score = lastReviewScore (initState g).state.history := by
    simp [initState, lastReviewScore]
  have h2 : scoreInvariant (initState g).state.history := by
    intro i hi
    simp [initState] at hi
  exact (runLoop_preserves g cfg _ hbeh fuel (initState g) h1 h2).2

/-- Witness for C10: the invariant instantiated on a concrete passing run of
the build → review → export pipeline. -/
theorem build_entries_carry_prior_review_score_witness :
    scoreInvariant
      ((runLoop g2 cCfg (behC cCfg (fun _ => 9 / 10) (fun _ => "A")) 5
        (initState g2)).1.state.history) :=
  build_entries_carry_prior_review_score g2 cCfg (fun _ => 9 / 10) (fun _ => "A") 5
